import Mathlib

/-!
Shallow embedding of the selection engine of the Dance text editor
(`src/api/selections.ts` and friends), together with theorems checking the
natural-language specification against the code.

Positions, selections and documents are modelled as plain inductive values;
`vscode.Position`/`vscode.Selection` comparisons are translated field by
field. JavaScript thenables are modelled by explicit two-variant result
types, and the dynamic values that can leak through untyped casts keep a
dedicated constructor so that the source's behaviour is reproduced exactly.
-/

/-- Model of `vscode.Position`: an immutable (line, character) coordinate,
totally ordered lexicographically. -/
structure Position where
  line : Nat
  character : Nat
deriving DecidableEq, Repr

/-- Model of `vscode.Position.isBefore` (strict lexicographic order). -/
def Position.isBefore (p q : Position) : Bool :=
  p.line < q.line || (p.line = q.line && p.character < q.character)

/-- Model of `vscode.Position.isBeforeOrEqual`. -/
def Position.isBeforeOrEqual (p q : Position) : Bool :=
  p.line < q.line || (p.line = q.line && p.character ≤ q.character)

/-- Model of `vscode.Position.isAfter`. -/
def Position.isAfter (p q : Position) : Bool :=
  q.isBefore p

/-- Model of `vscode.Position.isAfterOrEqual`. -/
def Position.isAfterOrEqual (p q : Position) : Bool :=
  q.isBeforeOrEqual p

/-- Model of `vscode.Position.isEqual`. -/
def Position.isEqual (p q : Position) : Bool :=
  p = q

/-- Model of `vscode.Selection`: a pair (anchor, active) of positions. -/
structure Selection where
  anchor : Position
  active : Position
deriving DecidableEq, Repr

/-- Model of `vscode.Selection.isReversed` (`active` is before `anchor`). -/
def Selection.isReversed (s : Selection) : Bool :=
  s.active.isBefore s.anchor

/-- Model of `vscode.Range.start`: the earlier of anchor and active. -/
def Selection.start (s : Selection) : Position :=
  if s.active.isBefore s.anchor then s.active else s.anchor

/-- Model of `vscode.Range.end`: the later of anchor and active (`end` is a
Lean keyword, hence the underscore). -/
def Selection.end_ (s : Selection) : Position :=
  if s.active.isBefore s.anchor then s.anchor else s.active

/-- Model of `vscode.Selection.isEmpty` (anchor equals active). -/
def Selection.isEmpty (s : Selection) : Bool :=
  s.anchor = s.active

/-- Model of the external Document adapter (spec section 6): a document is
the list of its lines, each line being its text without the trailing line
break. Consecutive lines are separated by a one-character line break. -/
structure TextDocument where
  lines : List (List Char)
deriving DecidableEq, Repr

/-- Model of `vscode.TextDocument.lineCount`. -/
def TextDocument.lineCount (doc : TextDocument) : Nat :=
  doc.lines.length

/-- Model of `vscode.TextDocument.lineAt(line).text.length`. -/
def TextDocument.lineLength (doc : TextDocument) (line : Nat) : Nat :=
  ((doc.lines.getD line []).length)

/-- Model of `vscode.TextDocument.offsetAt`: characters of the preceding
lines, one character per line break, plus the character offset. -/
def TextDocument.offsetAt (doc : TextDocument) (p : Position) : Nat :=
  ((doc.lines.take p.line).foldl (fun acc l => acc + l.length + 1) 0) + p.character

/-- Full text of the document, lines joined by a line break. -/
def TextDocument.fullText (doc : TextDocument) : List Char :=
  List.intercalate ['\x0a'] doc.lines

/-- Model of `vscode.TextDocument.getText(range)`. -/
def TextDocument.getText (doc : TextDocument) (s : Selection) : List Char :=
  ((doc.fullText).drop (doc.offsetAt s.start)).take
    (doc.offsetAt s.end_ - doc.offsetAt s.start)

/-- The last position of the buffer (the absolute end of the document). -/
def TextDocument.lastPosition (doc : TextDocument) : Position :=
  ⟨doc.lineCount - 1, doc.lineLength (doc.lineCount - 1)⟩

/-- Whether a position lies within the bounds of a document (spec section 3:
positions lie within current document bounds, enforced by the adapter). -/
def Position.validIn (p : Position) (doc : TextDocument) : Prop :=
  p.line < doc.lineCount ∧ p.character ≤ doc.lineLength p.line

instance (p : Position) (doc : TextDocument) : Decidable (p.validIn doc) := by
  unfold Position.validIn
  infer_instance

/-- Modelled from the spec: `Lines.length(line, document)` from `api/lines.ts`
(not under `src/`), the length of the text of the given line (Document
adapter, spec section 6). -/
def Lines.length (line : Nat) (doc : TextDocument) : Nat :=
  doc.lineLength line

/-- Model of `Selections.fromStartEnd` (position arguments): if `reversed`,
the anchor is `end` and the active is `start`, otherwise the converse. -/
def Selections.fromStartEnd (start end_ : Position) (reversed : Bool) : Selection :=
  if reversed then ⟨end_, start⟩ else ⟨start, end_⟩

/-- Model of `Selections.endLine`: if the selection spans several lines and
ends at character 0, the previous line; otherwise the end line. -/
def Selections.endLine (selection : Selection) : Nat :=
  let startLine := selection.start.line
  let endLine := selection.end_.line
  let endCharacter := selection.end_.character
  if startLine ≠ endLine ∧ endCharacter = 0 then
    endLine - 1
  else
    endLine

/-- Model of `Selections.endCharacter`. -/
def Selections.endCharacter (selection : Selection) (doc : TextDocument) : Nat :=
  let startLine := selection.start.line
  let endLine := selection.end_.line
  let endCharacter := selection.end_.character
  if startLine ≠ endLine ∧ endCharacter = 0 then
    doc.lineLength (endLine - 1) + 1
  else
    endCharacter

/-- Model of `Selections.endPosition`. -/
def Selections.endPosition (selection : Selection) (doc : TextDocument) : Position :=
  let line := Selections.endLine selection
  if line ≠ selection.end_.line then
    ⟨line, doc.lineLength line⟩
  else
    selection.end_

/-- Model of the per-selection body of `Selections.toCharacterMode`:
converts one caret-mode selection into its character-mode rendering. -/
def Selections.toCharacterModeSel (doc : TextDocument) (selection : Selection) : Selection :=
  let selectionActive := selection.active
  let selectionActiveLine := selectionActive.line
  let selectionActiveCharacter := selectionActive.character
  let selectionAnchor := selection.anchor
  let selectionAnchorLine := selectionAnchor.line
  let selectionAnchorCharacter := selectionAnchor.character
  if selectionAnchorLine = selectionActiveLine then
    if selectionAnchorCharacter + 1 = selectionActiveCharacter then
      -- Selection is one-character long: make it empty.
      ⟨selectionAnchor, selectionAnchor⟩
    else if selectionAnchorCharacter = selectionActiveCharacter + 1 then
      -- Selection is reversed and one-character long: make it empty
      -- (JavaScript `anchorCharacter - 1 === activeCharacter`).
      ⟨selectionActive, selectionActive⟩
    else if selectionAnchorCharacter < selectionActiveCharacter then
      -- Selection is strictly forward-facing: make it shorter.
      ⟨selectionAnchor, ⟨selectionActiveLine, selectionActiveCharacter - 1⟩⟩
    else
      -- Selection is reversed or empty: do nothing.
      selection
  else if selectionAnchorLine < selectionActiveLine then
    -- Selection is strictly forward-facing: make it shorter.
    if selectionActiveCharacter > 0 then
      ⟨selectionAnchor, ⟨selectionActiveLine, selectionActiveCharacter - 1⟩⟩
    else
      let activePrevLine := selectionActiveLine - 1
      let activePrevLineLength := doc.lineLength activePrevLine
      ⟨selectionAnchor, ⟨activePrevLine, activePrevLineLength⟩⟩
  else if selectionAnchorLine = selectionActiveLine + 1
          ∧ selectionAnchorCharacter = 0
          ∧ selectionActiveCharacter = Lines.length selectionActiveLine doc then
    -- Selection is reversed and one-character long: make it empty.
    ⟨selectionActive, selectionActive⟩
  else
    -- Selection is reversed: do nothing.
    selection

/-- Model of `Selections.toCharacterMode`. -/
def Selections.toCharacterMode
    (selections : List Selection) (doc : TextDocument) : List Selection :=
  selections.map (Selections.toCharacterModeSel doc)

/-- Model of the per-selection body of `Selections.fromCharacterMode`:
extends an empty or forward-facing selection by one character, moving to
column 0 of the next line at end of line, except at the very end of the
buffer. -/
def Selections.fromCharacterModeSel (doc : TextDocument) (selection : Selection) : Selection :=
  let selectionActive := selection.active
  let selectionActiveLine := selectionActive.line
  let selectionActiveCharacter := selectionActive.character
  let selectionAnchor := selection.anchor
  let selectionAnchorLine := selectionAnchor.line
  let selectionAnchorCharacter := selectionAnchor.character
  let isEmptyOrForwardFacing := selectionAnchorLine < selectionActiveLine
    ∨ (selectionAnchorLine = selectionActiveLine
        ∧ selectionAnchorCharacter ≤ selectionActiveCharacter)
  if isEmptyOrForwardFacing then
    let lineLength := doc.lineLength selectionActiveLine
    if selectionActiveCharacter = lineLength then
      if selectionActiveLine + 1 < doc.lineCount then
        ⟨selectionAnchor, ⟨selectionActiveLine + 1, 0⟩⟩
      else
        selection
    else
      ⟨selectionAnchor, ⟨selectionActiveLine, selectionActiveCharacter + 1⟩⟩
  else
    selection

/-- Model of `Selections.fromCharacterMode` (the variant taking no direction
argument). -/
def Selections.fromCharacterMode
    (selections : List Selection) (doc : TextDocument) : List Selection :=
  selections.map (Selections.fromCharacterModeSel doc)

/-- State threaded through `mergeOverlappingSelections`: the per-index
deactivation marks (`ignoreSelections`) and the output being built
(`newSelections`, `none` while the input is returned unchanged). -/
structure MergeState where
  ignore : List Bool
  newSelections : Option (List Selection)
deriving Repr

/-- Result of the inner scan of `mergeOverlappingSelections`: the
accumulator's bounds, whether it changed, and the updated state. -/
structure MergeScanResult where
  aStart : Position
  aEnd : Position
  changed : Bool
  state : MergeState
deriving Repr

/-- Model of the inner `for j` loop of `mergeOverlappingSelections`,
accumulator at index `i`. `fuel` bounds the number of loop iterations (the
loop restarts from `i + 1` after most merges); the wrapper supplies enough
fuel for the loop to run to completion. -/
def mergeScan (selections : List Selection) (alsoMergeConsecutiveSelections : Bool)
    (i : Nat) :
    Nat → Nat → Position → Position → Bool → Bool → MergeState → MergeScanResult
  | 0, _, aStart, aEnd, _, changed, st => ⟨aStart, aEnd, changed, st⟩
  | fuel + 1, j, aStart, aEnd, aIsEmpty, changed, st =>
    if h : j < selections.length then
      if st.ignore.getD j false then
        mergeScan selections alsoMergeConsecutiveSelections i fuel (j + 1)
          aStart aEnd aIsEmpty changed st
      else
        let b := selections.get ⟨j, h⟩
        let bStart := b.start
        let bEnd := b.end_
        if aIsEmpty then
          if bStart.isEqual bEnd then
            if bStart.isEqual aStart then
              -- A and B are two equal empty selections, and we can keep A.
              mergeScan selections alsoMergeConsecutiveSelections i fuel (j + 1)
                aStart aEnd aIsEmpty true ⟨st.ignore.set j true, st.newSelections⟩
            else
              -- A and B are two different empty selections.
              mergeScan selections alsoMergeConsecutiveSelections i fuel (j + 1)
                aStart aEnd aIsEmpty changed st
          else if bStart.isBeforeOrEqual aStart && bEnd.isAfterOrEqual bStart then
            -- Comment in the source: "The empty selection A is included in
            -- B"; the second conjunct compares bEnd with bStart, as written.
            mergeScan selections alsoMergeConsecutiveSelections i fuel (j + 1)
              bStart bEnd false true ⟨st.ignore.set j true, st.newSelections⟩
          else
            -- The empty selection A is strictly before or after B.
            mergeScan selections alsoMergeConsecutiveSelections i fuel (j + 1)
              aStart aEnd aIsEmpty changed st
        else
          if aStart.isAfterOrEqual bStart
             && (aStart.isBefore bEnd
                 || (alsoMergeConsecutiveSelections && aStart.isEqual bEnd)) then
            -- Selection A starts within selection B...
            if aEnd.isBeforeOrEqual bEnd then
              -- ... and ends within selection B (it is included in B).
              mergeScan selections alsoMergeConsecutiveSelections i fuel (i + 1)
                bStart bEnd aIsEmpty true ⟨st.ignore.set j true, st.newSelections⟩
            else if aStart.isEqual bStart then
              -- B is included in A: avoid creating a new selection needlessly.
              mergeScan selections alsoMergeConsecutiveSelections i fuel (j + 1)
                aStart aEnd aIsEmpty changed
                ⟨st.ignore.set j true,
                 some (st.newSelections.getD (selections.take i))⟩
            else
              mergeScan selections alsoMergeConsecutiveSelections i fuel (i + 1)
                bStart aEnd aIsEmpty true ⟨st.ignore.set j true, st.newSelections⟩
          else if (aEnd.isAfter bStart
                   || (alsoMergeConsecutiveSelections && aEnd.isEqual bStart))
                  && aEnd.isBeforeOrEqual bEnd then
            -- Selection A ends within selection B (and starts before it).
            mergeScan selections alsoMergeConsecutiveSelections i fuel (i + 1)
              aStart bEnd aIsEmpty true ⟨st.ignore.set j true, st.newSelections⟩
          else
            -- No overlap.
            mergeScan selections alsoMergeConsecutiveSelections i fuel (j + 1)
              aStart aEnd aIsEmpty changed st
    else
      ⟨aStart, aEnd, changed, st⟩

/-- Model of the outer `for i` loop of `mergeOverlappingSelections`. The
first `Nat` argument is fuel bounding the number of outer iterations (the
loop advances `i` by one each time, so `selections.length + 1` is always
enough); the inner-scan fuel follows. -/
def mergeOuter (selections : List Selection) (alsoMergeConsecutiveSelections : Bool)
    (fuel : Nat) : Nat → Nat → MergeState → Option (List Selection)
  | 0, _, st => st.newSelections
  | outerFuel + 1, i, st =>
    if h : i < selections.length then
      if st.ignore.getD i false then
        mergeOuter selections alsoMergeConsecutiveSelections fuel outerFuel (i + 1) st
      else
        let a := selections.get ⟨i, h⟩
        let r := mergeScan selections alsoMergeConsecutiveSelections i fuel (i + 1)
          a.start a.end_ (a.start.isEqual a.end_) false st
        if r.changed then
          let ns := r.state.newSelections.getD (selections.take i)
          mergeOuter selections alsoMergeConsecutiveSelections fuel outerFuel (i + 1)
            ⟨r.state.ignore,
             some (ns ++ [Selections.fromStartEnd r.aStart r.aEnd a.isReversed])⟩
        else
          match r.state.newSelections with
          | some ns =>
            mergeOuter selections alsoMergeConsecutiveSelections fuel outerFuel (i + 1)
              ⟨r.state.ignore, some (ns ++ [a])⟩
          | none =>
            mergeOuter selections alsoMergeConsecutiveSelections fuel outerFuel (i + 1)
              ⟨r.state.ignore, none⟩
    else
      st.newSelections

/-- Model of `mergeOverlappingSelections`. The inner-scan fuel
`(n + 1) * (n + 2)` exceeds the maximal number of inner iterations: between
two restarts the scan advances at most `n + 1` times, and every restart
deactivates one selection, so there are at most `n` restarts. The outer
loop runs at most `n` iterations. -/
def mergeOverlappingSelections (selections : List Selection)
    (alsoMergeConsecutiveSelections : Bool := false) : List Selection :=
  let n := selections.length
  match mergeOuter selections alsoMergeConsecutiveSelections ((n + 1) * (n + 2)) (n + 1) 0
      ⟨List.replicate n false, none⟩ with
  | some newSelections => newSelections
  | none => selections

/-- Model of `rotateSelections`. JavaScript `%` on integers is the truncated
remainder, modelled by `Int.tmod`; `new Array(len)` is modelled by a list of
placeholder selections, every slot of which is assigned by the loop. -/
def rotateSelections (by_ : Int) (selections : List Selection) : List Selection :=
  let len := selections.length
  let normalized := Int.tmod by_ (len : Int) + (len : Int)
  if normalized = (len : Int) then
    selections
  else
    (List.range len).foldl
      (fun newSelections i =>
        newSelections.set ((i + normalized.toNat) % len)
          (selections.getD i ⟨⟨0, 0⟩, ⟨0, 0⟩⟩))
      (List.replicate len ⟨⟨0, 0⟩, ⟨0, 0⟩⟩)

/-- Result of one call of a per-index mapper passed to
`mapSelections.byIndex`: the JavaScript value is `undefined`, an immediate
value, or a thenable (modelled by the value it eventually resolves to,
`none` standing for a resolution to `undefined`). -/
inductive MapRes (T : Type) where
  | undef
  | imm (t : T)
  | thenable (t : Option T)
deriving DecidableEq, Repr

/-- A JavaScript value stored in the array built by the synchronous path of
`mapSelections.byIndex`: either a plain value, or a raw thenable object that
was pushed without being resolved. -/
inductive JSVal (T : Type) where
  | val (t : T)
  | thenableObj (t : Option T)
deriving DecidableEq, Repr

/-- Return value of `mapSelections.byIndex`: a synchronously returned array,
or a thenable of an array (modelled by the array it eventually resolves
to). -/
inductive MapRet (T : Type) where
  | sync (l : List (JSVal T))
  | async (l : List T)
deriving DecidableEq, Repr

/-- The resolved value of a `MapRes`, as produced by `Promise.all` (plain
values resolve to themselves, `undefined` resolves to `undefined`). -/
def MapRes.resolve {T : Type} : MapRes T → Option T
  | .undef => none
  | .imm t => some t
  | .thenable t => t

/-- Model of the `for` loop of the synchronous path of
`mapSelections.byIndex`: `undefined` results are skipped, any other result
(including a raw thenable) is pushed. -/
def mapSyncLoop {T : Type} (f : Nat → Selection → TextDocument → MapRes T)
    (doc : TextDocument) : Nat → List Selection → List (JSVal T)
  | _, [] => []
  | i, selection :: rest =>
    match f i selection doc with
    | .undef => mapSyncLoop f doc (i + 1) rest
    | .imm t => .val t :: mapSyncLoop f doc (i + 1) rest
    | .thenable t => .thenableObj t :: mapSyncLoop f doc (i + 1) rest

/-- Model of the `promises` array of the suspended path of
`mapSelections.byIndex`, after `Promise.all` resolved every entry. -/
def mapPromises {T : Type} (f : Nat → Selection → TextDocument → MapRes T)
    (doc : TextDocument) : Nat → List Selection → List (Option T)
  | _, [] => []
  | i, selection :: rest =>
    (f i selection doc).resolve :: mapPromises f doc (i + 1) rest

/-- Model of the final filtering of the suspended path of
`mapSelections.byIndex`: keep the non-`undefined` resolved results. -/
def collectDefined {T : Type} : List (Option T) → List T
  | [] => []
  | none :: rest => collectDefined rest
  | some t :: rest => t :: collectDefined rest

/-- Model of `mapSelections.byIndex`: probes the result at index 0; if it is
immediate (or `undefined`), runs synchronously over the remaining indices,
otherwise initiates every call and suspends once for all results. (On an
empty selection list the source would call `f` on `undefined`; selection
sets are never empty, and the model returns an empty synchronous array.) -/
def mapSelections.byIndex {T : Type} (f : Nat → Selection → TextDocument → MapRes T)
    (selections : List Selection) (doc : TextDocument) : MapRet T :=
  match selections with
  | [] => .sync []
  | firstSelection :: rest =>
    match f 0 firstSelection doc with
    | .undef => .sync (mapSyncLoop f doc 1 rest)
    | .imm t => .sync (.val t :: mapSyncLoop f doc 1 rest)
    | .thenable t =>
      if rest.isEmpty then
        .async (match t with | some v => [v] | none => [])
      else
        .async (collectDefined (t :: mapPromises f doc 1 rest))

/-- Model of `mapSelections` (the by-text convenience wrapper): resolves
each selection's covered text before delegating to the index-based
variant. -/
def mapSelections {T : Type} (f : List Char → Selection → Nat → MapRes T)
    (selections : List Selection) (doc : TextDocument) : MapRet T :=
  mapSelections.byIndex (fun i selection document => f (document.getText selection) selection i)
    selections doc

/-- Result of one call of a predicate passed to `filterSelections.byIndex`:
an immediate boolean or a thenable of a boolean. -/
inductive PredRes where
  | imm (b : Bool)
  | thenable (b : Bool)
deriving DecidableEq, Repr

/-- JavaScript truthiness of a predicate result, as used by the synchronous
path of `filterSelections.byIndex`: a raw thenable object is truthy. -/
def PredRes.truthy : PredRes → Bool
  | .imm b => b
  | .thenable _ => true

/-- The resolved value of a predicate result, as produced by
`Promise.all`. -/
def PredRes.resolve : PredRes → Bool
  | .imm b => b
  | .thenable b => b

/-- An element of the array returned by the synchronous path of
`filterSelections.byIndex`: a selection, or the boolean leaked by the
single-selection path. -/
inductive SelOrBool where
  | sel (s : Selection)
  | bool (b : Bool)
deriving DecidableEq, Repr

/-- Return value of `filterSelections.byIndex`: a synchronously returned
array, or a thenable of a selection array (modelled by the array it
eventually resolves to). -/
inductive FilterRet where
  | sync (l : List SelOrBool)
  | async (l : List Selection)
deriving DecidableEq, Repr

/-- Model of the `for` loop of the synchronous path of
`filterSelections.byIndex`: pushes the selections whose predicate result is
truthy. -/
def filterSyncLoop (predicate : Nat → Selection → TextDocument → PredRes)
    (doc : TextDocument) : Nat → List Selection → List SelOrBool
  | _, [] => []
  | i, selection :: rest =>
    if (predicate i selection doc).truthy then
      .sel selection :: filterSyncLoop predicate doc (i + 1) rest
    else
      filterSyncLoop predicate doc (i + 1) rest

/-- Model of the suspended path of `filterSelections.byIndex`: keep the
selections whose resolved predicate result is truthy. -/
def filterAsyncLoop (predicate : Nat → Selection → TextDocument → PredRes)
    (doc : TextDocument) : Nat → List Selection → List Selection
  | _, [] => []
  | i, selection :: rest =>
    if (predicate i selection doc).resolve then
      selection :: filterAsyncLoop predicate doc (i + 1) rest
    else
      filterAsyncLoop predicate doc (i + 1) rest

/-- Model of `filterSelections.byIndex`. On a single-selection list whose
synchronous predicate result is truthy, the source returns `[firstResult]`
(the boolean itself), faithfully modelled by `SelOrBool.bool`. -/
def filterSelections.byIndex (predicate : Nat → Selection → TextDocument → PredRes)
    (selections : List Selection) (doc : TextDocument) : FilterRet :=
  match selections with
  | [] => .sync []
  | firstSelection :: rest =>
    match predicate 0 firstSelection doc with
    | .imm firstResult =>
      if rest.isEmpty then
        .sync (if firstResult then [.bool firstResult] else [])
      else
        .sync ((if firstResult then [.sel firstSelection] else [])
          ++ filterSyncLoop predicate doc 1 rest)
    | .thenable firstResult =>
      if rest.isEmpty then
        .async (if firstResult then [firstSelection] else [])
      else
        .async ((if firstResult then [firstSelection] else [])
          ++ filterAsyncLoop predicate doc 1 rest)

/-- Modelled from the spec: the error kinds of the engine (spec section 7;
`errors.ts` is not under `src/`). `emptySelections` is the
`EmptySelectionsError` thrown when a commit would leave the selection set
empty, `notASelection` the `NotASelectionError` thrown when an array element
is not a well-formed selection. -/
inductive SelError where
  | emptySelections
  | notASelection
deriving DecidableEq, Repr

/-- Modelled from the spec: the editing context (`context.ts` is not under
`src/`), reduced to the state the engine reads and writes — the current
document and the current selection set (spec section 6). The reveal
side effect touches only the viewport and is not modelled. -/
structure Context where
  document : TextDocument
  selections : List Selection
deriving DecidableEq, Repr

/-- Whether a JavaScript array element is a well-formed selection. -/
def JSVal.isSelection {T : Type} : JSVal T → Bool
  | .val _ => true
  | .thenableObj _ => false

/-- Modelled from the spec:
`NotASelectionError.throwIfNotASelectionArray(selections)` (`errors.ts`, not
under `src/`) throws `EmptySelectionsError` on an empty array and
`NotASelectionError` when an element is not a selection, per the
`setSelections` documented examples and spec section 7. -/
def NotASelectionError.throwIfNotASelectionArray
    (selections : List (JSVal Selection)) : Except SelError Unit :=
  if selections.isEmpty then
    .error .emptySelections
  else if selections.all JSVal.isSelection then
    .ok ()
  else
    .error .notASelection

/-- The selections of a checked array (every element passed
`JSVal.isSelection`). -/
def JSVal.selectionsOf (selections : List (JSVal Selection)) : List Selection :=
  selections.filterMap (fun v => match v with | .val s => some s | .thenableObj _ => none)

/-- Model of `setSelections`: validates the array, then replaces the
context's current selection set (and reveals the primary selection, a
viewport side effect outside this model). On failure the context is left
unchanged, since the validation throws before the assignment. -/
def setSelections (selections : List (JSVal Selection)) (context : Context) :
    Except SelError (List Selection) × Context :=
  match NotASelectionError.throwIfNotASelectionArray selections with
  | .error e => (.error e, context)
  | .ok () =>
    let checked := JSVal.selectionsOf selections
    (.ok checked, { context with selections := checked })

instance {E T : Type} [DecidableEq E] [DecidableEq T] : DecidableEq (Except E T)
  | .ok a, .ok b =>
    if h : a = b then .isTrue (by rw [h]) else .isFalse (by intro hh; injection hh; contradiction)
  | .ok _, .error _ => .isFalse (by intro hh; cases hh)
  | .error _, .ok _ => .isFalse (by intro hh; cases hh)
  | .error a, .error b =>
    if h : a = b then .isTrue (by rw [h]) else .isFalse (by intro hh; injection hh; contradiction)

/-- Outcome of `updateSelections` and of `updateSelections.withFallback`:
the commit either happened synchronously or after a suspension; either way
it carries the final result and the final context. -/
inductive UpdateRet where
  | sync (r : Except SelError (List Selection) × Context)
  | suspended (r : Except SelError (List Selection) × Context)
deriving DecidableEq, Repr

/-- Model of `updateSelections`: maps the context's current selections and
commits the result as the new current selection set. -/
def updateSelections (f : List Char → Selection → Nat → MapRes Selection)
    (context : Context) : UpdateRet :=
  match mapSelections f context.selections context.document with
  | .sync selections => .sync (setSelections selections context)
  | .async selections => .suspended (setSelections (selections.map .val) context)

/-- A value returned by a mapper passed to `updateSelections.withFallback`,
as declared by `SelectionOrFallback` minus `undefined` (which
`mapSelections` filters out): a real selection, or a one-element fallback
array. -/
inductive PureFb where
  | sel (s : Selection)
  | fallbackArr (s : Selection)
deriving DecidableEq, Repr

/-- An element of the `values` array received by `mapFallbackSelections`:
a real selection, a one-element fallback array, or `undefined` (checked by
the source although `mapSelections` never produces it). -/
inductive FbRes where
  | selV (s : Selection)
  | fallbackV (s : Selection)
  | undefV
deriving DecidableEq, Repr

/-- Whether `Array.isArray(value)` holds for a fallback-pipeline value. -/
def FbRes.isArray : FbRes → Bool
  | .fallbackV _ => true
  | _ => false

/-- Whether a fallback-pipeline value counts as a real selection
(`!Array.isArray(value) && value !== undefined`). -/
def FbRes.isRealSelection : FbRes → Bool
  | .selV _ => true
  | _ => false

/-- Model of the first counting loop of `mapFallbackSelections`. -/
def fallbackCounts : List FbRes → Nat × Nat
  | [] => (0, 0)
  | v :: rest =>
    let (selectionsCount, fallbackSelectionsCount) := fallbackCounts rest
    if v.isArray then
      (selectionsCount, fallbackSelectionsCount + 1)
    else if v ≠ .undefV then
      (selectionsCount + 1, fallbackSelectionsCount)
    else
      (selectionsCount, fallbackSelectionsCount)

/-- Model of `mapFallbackSelections`: keep the real selections when at least
one exists, otherwise the fallback selections, otherwise nothing. -/
def mapFallbackSelections (values : List FbRes) : List Selection :=
  let (selectionsCount, fallbackSelectionsCount) := fallbackCounts values
  if selectionsCount > 0 then
    values.filterMap (fun v => match v with | .selV s => some s | _ => none)
  else if fallbackSelectionsCount > 0 then
    values.filterMap (fun v => match v with | .fallbackV s => some s | _ => none)
  else
    []

/-- A value of the synchronous result array of `mapSelections` at type
`PureFb`, viewed as a fallback-pipeline value. A `thenableObj` entry can
only arise from a mapper that mixes synchronous and suspending results,
which no declared mapper type allows; such entries are unreachable in every
use below. -/
def JSVal.toFbRes : JSVal PureFb → FbRes
  | .val (.sel s) => .selV s
  | .val (.fallbackArr s) => .fallbackV s
  | .thenableObj _ => .undefV

/-- A resolved suspended-path result of `mapSelections` at type `PureFb`,
viewed as a fallback-pipeline value. -/
def PureFb.toFbRes : PureFb → FbRes
  | .sel s => .selV s
  | .fallbackArr s => .fallbackV s

/-- Model of `updateSelections.withFallback`: maps the context's current
selections, combines real and fallback results with
`mapFallbackSelections`, and commits. -/
def updateSelections.withFallback (f : List Char → Selection → Nat → MapRes PureFb)
    (context : Context) : UpdateRet :=
  match mapSelections f context.selections context.document with
  | .sync selections =>
    .sync (setSelections
      ((mapFallbackSelections (selections.map JSVal.toFbRes)).map .val) context)
  | .async values =>
    .suspended (setSelections
      ((mapFallbackSelections (values.map PureFb.toFbRes)).map .val) context)

/-- The array a caller eventually observes from `mapSelections.byIndex`,
once the returned thenable (if any) resolved: awaiting an array does not
resolve its elements, so a synchronous array is observed as is, while a
suspended result resolves to an array of plain values. -/
def MapRet.eventualArray {T : Type} : MapRet T → List (JSVal T)
  | .sync l => l
  | .async l => l.map .val

/-- The all-synchronous equivalent of a per-index mapper (claim C4's
comparison point): each suspended result is replaced by its resolved
value. -/
def syncEquiv {T : Type} (f : Nat → Selection → TextDocument → MapRes T) :
    Nat → Selection → TextDocument → MapRes T :=
  fun i selection doc =>
    match f i selection doc with
    | .thenable (some t) => .imm t
    | .thenable none => .undef
    | r => r

/-- A synchronous by-text fallback mapper, embedded as a `MapRes` mapper
(`none` is the absent result, `undefined`). -/
def embedSyncFb (g : List Char → Selection → Nat → Option PureFb) :
    List Char → Selection → Nat → MapRes PureFb :=
  fun text selection i =>
    match g text selection i with
    | none => .undef
    | some v => .imm v

/-- The per-selection results of a synchronous by-text fallback mapper over
a selection list, in input order (claim C6's collection of per-selection
results). -/
def fbResults (g : List Char → Selection → Nat → Option PureFb)
    (doc : TextDocument) : Nat → List Selection → List (Option PureFb)
  | _, [] => []
  | i, selection :: rest =>
    g (doc.getText selection) selection i :: fbResults g doc (i + 1) rest

/-- The real (non-fallback, non-absent) selections among per-selection
results, in input order. -/
def realSelectionsOf (results : List (Option PureFb)) : List Selection :=
  results.filterMap (fun r => match r with | some (.sel s) => some s | _ => none)

/-- The fallback selections among per-selection results, in input order. -/
def fallbackSelectionsOf (results : List (Option PureFb)) : List Selection :=
  results.filterMap (fun r => match r with | some (.fallbackArr s) => some s | _ => none)

theorem Selection.start_line_le_end_line (s : Selection) : s.start.line ≤ s.end_.line := by
  unfold Selection.start Selection.end_
  by_cases h : s.active.isBefore s.anchor = true
  · rw [if_pos h, if_pos h]
    simp only [Position.isBefore, Bool.or_eq_true, decide_eq_true_eq,
      Bool.and_eq_true] at h
    omega
  · rw [if_neg h, if_neg h]
    simp only [Position.isBefore, Bool.or_eq_true, decide_eq_true_eq,
      Bool.and_eq_true] at h
    push_neg at h
    omega

theorem Selection.start_eq_end_of_isEmpty (s : Selection) (h : s.isEmpty = true) :
    s.start = s.end_ := by
  unfold Selection.isEmpty at h
  simp only [decide_eq_true_eq] at h
  unfold Selection.start Selection.end_
  rw [h]

/-- C9: a non-empty selection ending at character 0 of a line strictly after
its start line has `endLine` equal to `end.line - 1` and `endPosition` at
the end of that previous line's text; every other selection (including
every empty selection) has `endLine = end.line` and `endPosition = end`. -/
theorem endLine_endPosition_spec (sel : Selection) (doc : TextDocument) :
    (sel.isEmpty = false ∧ sel.end_.character = 0 ∧ sel.start.line < sel.end_.line →
      Selections.endLine sel = sel.end_.line - 1 ∧
      Selections.endPosition sel doc
        = ⟨sel.end_.line - 1, doc.lineLength (sel.end_.line - 1)⟩) ∧
    (¬(sel.isEmpty = false ∧ sel.end_.character = 0 ∧ sel.start.line < sel.end_.line) →
      Selections.endLine sel = sel.end_.line ∧
      Selections.endPosition sel doc = sel.end_) := by
  constructor
  · rintro ⟨-, hc, hlt⟩
    have hline : Selections.endLine sel = sel.end_.line - 1 := by
      unfold Selections.endLine
      rw [if_pos ⟨by omega, hc⟩]
    refine ⟨hline, ?_⟩
    unfold Selections.endPosition
    rw [hline, if_pos (by omega)]
  · intro h
    have hcond : ¬(sel.start.line ≠ sel.end_.line ∧ sel.end_.character = 0) := by
      rintro ⟨hne, hc⟩
      have hle := Selection.start_line_le_end_line sel
      have hlt : sel.start.line < sel.end_.line := by omega
      have hne' : sel.isEmpty = false := by
        cases hemp : sel.isEmpty with
        | false => rfl
        | true =>
          have := Selection.start_eq_end_of_isEmpty sel hemp
          rw [this] at hlt
          omega
      exact h ⟨hne', hc, hlt⟩
    have hline : Selections.endLine sel = sel.end_.line := by
      unfold Selections.endLine
      rw [if_neg hcond]
    refine ⟨hline, ?_⟩
    unfold Selections.endPosition
    rw [hline, if_neg (by omega)]

theorem endLine_endPosition_spec_witness :
    Selections.endLine ⟨⟨0, 1⟩, ⟨1, 0⟩⟩ = 0 ∧
    Selections.endPosition ⟨⟨0, 1⟩, ⟨1, 0⟩⟩ ⟨[['a', 'b'], ['c']]⟩ = ⟨0, 2⟩ := by
  have h := (endLine_endPosition_spec ⟨⟨0, 1⟩, ⟨1, 0⟩⟩ ⟨[['a', 'b'], ['c']]⟩).1
    (by decide)
  exact ⟨by rw [h.1]; decide, by rw [h.2]; decide⟩

theorem fromCharacterModeSel_anchor (doc : TextDocument) (s : Selection) :
    (Selections.fromCharacterModeSel doc s).anchor = s.anchor := by
  unfold Selections.fromCharacterModeSel
  dsimp only
  repeat' split
  all_goals rfl

/-- C10: `fromCharacterMode` (the variant taking no direction argument)
leaves the anchor of every selection unchanged; only the active position may
differ. -/
theorem fromCharacterMode_preserves_anchors (selections : List Selection)
    (doc : TextDocument) :
    (Selections.fromCharacterMode selections doc).map Selection.anchor
      = selections.map Selection.anchor := by
  unfold Selections.fromCharacterMode
  induction selections with
  | nil => rfl
  | cons s rest ih =>
    simp only [List.map_cons, ih, fromCharacterModeSel_anchor]

/-- C1 (failing input): `mergeOverlappingSelections` absorbs the empty
selection at (0, 5) into the candidate [(0, 0), (0, 1)], which does not
contain position (0, 5) (the condition `bEnd.isAfterOrEqual(bStart)`
compares the candidate with itself and always holds); the claim requires
the empty selection to appear in the output unchanged. -/
theorem mergeOverlapping_absorbs_noncontaining_candidate :
    mergeOverlappingSelections [⟨⟨0, 5⟩, ⟨0, 5⟩⟩, ⟨⟨0, 0⟩, ⟨0, 1⟩⟩] false
      = [⟨⟨0, 0⟩, ⟨0, 1⟩⟩] ∧
    mergeOverlappingSelections [⟨⟨0, 5⟩, ⟨0, 5⟩⟩, ⟨⟨0, 0⟩, ⟨0, 1⟩⟩] false
      ≠ [⟨⟨0, 5⟩, ⟨0, 5⟩⟩, ⟨⟨0, 0⟩, ⟨0, 1⟩⟩] := by
  decide

/-- C7 (failing input): merging is not idempotent in either merge mode. On
`[empty at (0, 5), [(0, 6), (0, 20)], [(0, 0), (0, 10)]]` the first merge
absorbs the empty selection into the last candidate without rescanning the
skipped one, leaving two overlapping selections, and a second merge changes
the result. -/
theorem mergeOverlapping_not_idempotent :
    mergeOverlappingSelections
        (mergeOverlappingSelections
          [⟨⟨0, 5⟩, ⟨0, 5⟩⟩, ⟨⟨0, 6⟩, ⟨0, 20⟩⟩, ⟨⟨0, 0⟩, ⟨0, 10⟩⟩] false) false
      ≠ mergeOverlappingSelections
          [⟨⟨0, 5⟩, ⟨0, 5⟩⟩, ⟨⟨0, 6⟩, ⟨0, 20⟩⟩, ⟨⟨0, 0⟩, ⟨0, 10⟩⟩] false ∧
    mergeOverlappingSelections
        (mergeOverlappingSelections
          [⟨⟨0, 5⟩, ⟨0, 5⟩⟩, ⟨⟨0, 6⟩, ⟨0, 20⟩⟩, ⟨⟨0, 0⟩, ⟨0, 10⟩⟩] true) true
      ≠ mergeOverlappingSelections
          [⟨⟨0, 5⟩, ⟨0, 5⟩⟩, ⟨⟨0, 6⟩, ⟨0, 20⟩⟩, ⟨⟨0, 0⟩, ⟨0, 10⟩⟩] true := by
  decide

/-- C3 (failing input): on a one-selection list whose synchronous predicate
returns `true`, `filterSelections.byIndex` returns `[firstResult]` — an
array containing the boolean `true` — instead of a one-element list
containing the selection. -/
theorem filterSelections_byIndex_single_true_leaks_boolean :
    filterSelections.byIndex (fun _ _ _ => .imm true)
        [⟨⟨0, 0⟩, ⟨0, 1⟩⟩] ⟨[['a', 'b']]⟩
      = .sync [.bool true] ∧
    filterSelections.byIndex (fun _ _ _ => .imm true)
        [⟨⟨0, 0⟩, ⟨0, 1⟩⟩] ⟨[['a', 'b']]⟩
      ≠ .sync [.sel ⟨⟨0, 0⟩, ⟨0, 1⟩⟩] := by
  decide

/-- C5: a synchronous mapper returning the absent marker for every selection
of a one-selection current set makes `updateSelections` fail with the
empty-resulting-set error, and the context's current selection set is left
unchanged by the failed call. -/
theorem updateSelections_absent_single_fails (context : Context) (s : Selection)
    (h : context.selections = [s]) :
    updateSelections (fun _ _ _ => .undef) context
      = .sync (.error .emptySelections, context) := by
  unfold updateSelections mapSelections
  rw [h]
  rfl

theorem updateSelections_absent_single_fails_witness :
    updateSelections (fun _ _ _ => .undef) ⟨⟨[['a', 'b']]⟩, [⟨⟨0, 0⟩, ⟨0, 1⟩⟩]⟩
      = .sync (.error .emptySelections, ⟨⟨[['a', 'b']]⟩, [⟨⟨0, 0⟩, ⟨0, 1⟩⟩]⟩) :=
  updateSelections_absent_single_fails _ ⟨⟨0, 0⟩, ⟨0, 1⟩⟩ rfl

theorem mapSyncLoop_syncEquiv {T : Type} (f : Nat → Selection → TextDocument → MapRes T)
    (doc : TextDocument) (l : List Selection) : ∀ i,
    mapSyncLoop (syncEquiv f) doc i l
      = (collectDefined (mapPromises f doc i l)).map JSVal.val := by
  induction l with
  | nil => intro i; rfl
  | cons s rest ih =>
    intro i
    simp only [mapSyncLoop, mapPromises, syncEquiv]
    cases hf : f i s doc with
    | undef => simp only [hf, MapRes.resolve, collectDefined, ih]
    | imm t => simp only [hf, MapRes.resolve, collectDefined, ih, List.map_cons]
    | thenable o =>
      cases o with
      | none => simp only [hf, MapRes.resolve, collectDefined, ih]
      | some t => simp only [hf, MapRes.resolve, collectDefined, ih, List.map_cons]

/-- C4 (failing input): when the call at index 0 returns immediately and a
later call returns a suspended result, the synchronous path of
`mapSelections.byIndex` pushes the raw thenable into the result array, so
the observed array differs from the one produced by the all-synchronous
equivalent mapper. -/
theorem mapSelections_byIndex_mixed_first_immediate_diverges :
    ((fun i (_ : Selection) (_ : TextDocument) =>
        if i = 0 then MapRes.imm 10 else MapRes.thenable none)
      0 ⟨⟨0, 0⟩, ⟨0, 0⟩⟩ ⟨[['a']]⟩ = MapRes.imm 10) ∧
    ((fun i (_ : Selection) (_ : TextDocument) =>
        if i = 0 then MapRes.imm 10 else MapRes.thenable none)
      1 ⟨⟨0, 1⟩, ⟨0, 1⟩⟩ ⟨[['a']]⟩ = MapRes.thenable none) ∧
    (mapSelections.byIndex
        (fun i (_ : Selection) (_ : TextDocument) =>
          if i = 0 then MapRes.imm 10 else MapRes.thenable none)
        [⟨⟨0, 0⟩, ⟨0, 0⟩⟩, ⟨⟨0, 1⟩, ⟨0, 1⟩⟩] ⟨[['a']]⟩).eventualArray
      ≠ (mapSelections.byIndex
        (syncEquiv (fun i (_ : Selection) (_ : TextDocument) =>
          if i = 0 then MapRes.imm 10 else MapRes.thenable none))
        [⟨⟨0, 0⟩, ⟨0, 0⟩⟩, ⟨⟨0, 1⟩, ⟨0, 1⟩⟩] ⟨[['a']]⟩).eventualArray := by
  decide

/-- C4 (amended): when the call at index 0 returns a suspended result (the
remaining calls may be immediate or suspended), `mapSelections.byIndex`
yields, once all results are available, index-for-index the same array as
`mapSelections.byIndex` applied to the all-synchronous equivalent mapper. -/
theorem mapSelections_byIndex_suspended_first_matches_sync {T : Type}
    (f : Nat → Selection → TextDocument → MapRes T) (doc : TextDocument)
    (firstSelection : Selection) (rest : List Selection) (o : Option T)
    (h0 : f 0 firstSelection doc = .thenable o) :
    (mapSelections.byIndex f (firstSelection :: rest) doc).eventualArray
      = (mapSelections.byIndex (syncEquiv f) (firstSelection :: rest) doc).eventualArray := by
  cases o with
  | none =>
    have hs : syncEquiv f 0 firstSelection doc = MapRes.undef := by
      unfold syncEquiv
      rw [h0]
    simp only [mapSelections.byIndex, h0, hs]
    cases rest with
    | nil => rfl
    | cons r rs =>
      simp [MapRet.eventualArray, mapSyncLoop_syncEquiv, collectDefined]
  | some t =>
    have hs : syncEquiv f 0 firstSelection doc = MapRes.imm t := by
      unfold syncEquiv
      rw [h0]
    simp only [mapSelections.byIndex, h0, hs]
    cases rest with
    | nil => rfl
    | cons r rs =>
      simp [MapRet.eventualArray, mapSyncLoop_syncEquiv, collectDefined]

theorem mapSelections_byIndex_suspended_first_matches_sync_witness :
    (mapSelections.byIndex
        (fun i (_ : Selection) (_ : TextDocument) =>
          if i = 0 then MapRes.thenable (some 5) else MapRes.imm 7)
        [⟨⟨0, 0⟩, ⟨0, 0⟩⟩, ⟨⟨0, 1⟩, ⟨0, 1⟩⟩] ⟨[['a']]⟩).eventualArray
      = (mapSelections.byIndex
        (syncEquiv (fun i (_ : Selection) (_ : TextDocument) =>
          if i = 0 then MapRes.thenable (some 5) else MapRes.imm 7))
        [⟨⟨0, 0⟩, ⟨0, 0⟩⟩, ⟨⟨0, 1⟩, ⟨0, 1⟩⟩] ⟨[['a']]⟩).eventualArray :=
  mapSelections_byIndex_suspended_first_matches_sync _ _ _ _ (some 5) rfl

theorem mapSyncLoop_embedSyncFb (g : List Char → Selection → Nat → Option PureFb)
    (doc : TextDocument) (l : List Selection) : ∀ i,
    mapSyncLoop (fun i selection document => embedSyncFb g (document.getText selection) selection i)
        doc i l
      = ((fbResults g doc i l).filterMap id).map JSVal.val := by
  induction l with
  | nil => intro i; rfl
  | cons s rest ih =>
    intro i
    simp only [mapSyncLoop, fbResults]
    cases hg : g (doc.getText s) s i with
    | none =>
      have he : embedSyncFb g (doc.getText s) s i = MapRes.undef := by
        unfold embedSyncFb
        rw [hg]
      simp only [he, hg, List.filterMap_cons, id, ih]
    | some v =>
      have he : embedSyncFb g (doc.getText s) s i = MapRes.imm v := by
        unfold embedSyncFb
        rw [hg]
      simp only [he, hg, List.filterMap_cons, id, ih, List.map_cons]

theorem mapSelections_embedSyncFb (g : List Char → Selection → Nat → Option PureFb)
    (selections : List Selection) (doc : TextDocument) :
    mapSelections (embedSyncFb g) selections doc
      = .sync (((fbResults g doc 0 selections).filterMap id).map JSVal.val) := by
  cases selections with
  | nil => rfl
  | cons s rest =>
    unfold mapSelections mapSelections.byIndex
    cases hg : g (doc.getText s) s 0 with
    | none =>
      have he : embedSyncFb g (doc.getText s) s 0 = MapRes.undef := by
        unfold embedSyncFb
        rw [hg]
      simp only [he, hg, mapSyncLoop_embedSyncFb, fbResults,
        List.filterMap_cons, id]
    | some v =>
      have he : embedSyncFb g (doc.getText s) s 0 = MapRes.imm v := by
        unfold embedSyncFb
        rw [hg]
      simp only [he, hg, mapSyncLoop_embedSyncFb, fbResults,
        List.filterMap_cons, id, List.map_cons]

theorem map_toFbRes_map_val (l : List PureFb) :
    (l.map JSVal.val).map JSVal.toFbRes = l.map PureFb.toFbRes := by
  induction l with
  | nil => rfl
  | cons p rest ih => cases p <;> simp [JSVal.toFbRes, PureFb.toFbRes, ih]

theorem fallbackCounts_map_toFbRes (l : List PureFb) :
    fallbackCounts (l.map PureFb.toFbRes)
      = ((l.filterMap (fun p => match p with | .sel s => some s | .fallbackArr _ => none)).length,
         (l.filterMap (fun p => match p with | .sel _ => none | .fallbackArr s => some s)).length) := by
  induction l with
  | nil => rfl
  | cons p rest ih =>
    cases p <;>
      simp [fallbackCounts, PureFb.toFbRes, FbRes.isArray, List.filterMap_cons, ih]

theorem filterMap_real_map_toFbRes (l : List PureFb) :
    (l.map PureFb.toFbRes).filterMap
        (fun v => match v with | .selV s => some s | _ => none)
      = l.filterMap (fun p => match p with | .sel s => some s | .fallbackArr _ => none) := by
  induction l with
  | nil => rfl
  | cons p rest ih => cases p <;> simp [PureFb.toFbRes, List.filterMap_cons, ih]

theorem filterMap_fallback_map_toFbRes (l : List PureFb) :
    (l.map PureFb.toFbRes).filterMap
        (fun v => match v with | .fallbackV s => some s | _ => none)
      = l.filterMap (fun p => match p with | .sel _ => none | .fallbackArr s => some s) := by
  induction l with
  | nil => rfl
  | cons p rest ih => cases p <;> simp [PureFb.toFbRes, List.filterMap_cons, ih]

theorem realSelectionsOf_filterMap (results : List (Option PureFb)) :
    realSelectionsOf results
      = (results.filterMap id).filterMap
          (fun p => match p with | .sel s => some s | .fallbackArr _ => none) := by
  unfold realSelectionsOf
  induction results with
  | nil => rfl
  | cons r rest ih =>
    cases r with
    | none => simp [List.filterMap_cons, ih]
    | some p => cases p <;> simp [List.filterMap_cons, ih]

theorem fallbackSelectionsOf_filterMap (results : List (Option PureFb)) :
    fallbackSelectionsOf results
      = (results.filterMap id).filterMap
          (fun p => match p with | .sel _ => none | .fallbackArr s => some s) := by
  unfold fallbackSelectionsOf
  induction results with
  | nil => rfl
  | cons r rest ih =>
    cases r with
    | none => simp [List.filterMap_cons, ih]
    | some p => cases p <;> simp [List.filterMap_cons, ih]

theorem JSVal.selectionsOf_map_val (l : List Selection) :
    JSVal.selectionsOf (l.map JSVal.val) = l := by
  induction l with
  | nil => rfl
  | cons s rest ih => simp [JSVal.selectionsOf, List.filterMap_cons] at ih ⊢; exact ih

theorem setSelections_map_val (l : List Selection) (context : Context)
    (h : l ≠ []) :
    setSelections (l.map JSVal.val) context
      = (.ok l, { context with selections := l }) := by
  unfold setSelections NotASelectionError.throwIfNotASelectionArray
  have hne : (l.map JSVal.val).isEmpty = false := by
    cases l with
    | nil => exact absurd rfl h
    | cons s rest => rfl
  have hall : (l.map JSVal.val).all JSVal.isSelection = true := by
    simp [List.all_eq_true, JSVal.isSelection]
  rw [hne]
  simp only [Bool.false_eq_true, if_false, hall, if_pos]
  rw [JSVal.selectionsOf_map_val]

/-- C6: for every collection of per-selection results passed through
`withFallback`, the committed set consists of exactly the real
(non-fallback, non-absent) selections in input order when at least one
exists; otherwise of exactly all fallback selections in input order when at
least one exists; otherwise the commit fails with the empty-set error and
the context is unchanged. -/
theorem withFallback_commits_reals_else_fallbacks
    (g : List Char → Selection → Nat → Option PureFb) (context : Context) :
    updateSelections.withFallback (embedSyncFb g) context
      = .sync (
          if (realSelectionsOf (fbResults g context.document 0 context.selections)).isEmpty then
            if (fallbackSelectionsOf (fbResults g context.document 0 context.selections)).isEmpty then
              (.error .emptySelections, context)
            else
              (.ok (fallbackSelectionsOf (fbResults g context.document 0 context.selections)),
                { context with selections :=
                    fallbackSelectionsOf (fbResults g context.document 0 context.selections) })
          else
            (.ok (realSelectionsOf (fbResults g context.document 0 context.selections)),
              { context with selections :=
                  realSelectionsOf (fbResults g context.document 0 context.selections) })) := by
  have hmap := mapSelections_embedSyncFb g context.selections context.document
  unfold updateSelections.withFallback
  rw [hmap]
  dsimp only
  rw [map_toFbRes_map_val]
  unfold mapFallbackSelections
  rw [fallbackCounts_map_toFbRes]
  dsimp only
  rw [filterMap_real_map_toFbRes, filterMap_fallback_map_toFbRes,
    ← realSelectionsOf_filterMap, ← fallbackSelectionsOf_filterMap]
  rcases hr : realSelectionsOf (fbResults g context.document 0 context.selections)
    with _ | ⟨r0, rrest⟩
  · rcases hf : fallbackSelectionsOf (fbResults g context.document 0 context.selections)
      with _ | ⟨f0, frest⟩
    · simp [hr, hf, setSelections, NotASelectionError.throwIfNotASelectionArray]
    · simp only [hr, hf, List.length_nil, List.length_cons, List.isEmpty_nil,
        List.isEmpty_cons, Nat.lt_irrefl, if_false, if_true, Nat.succ_pos,
        Nat.zero_lt_succ, gt_iff_lt, if_pos, ite_true, ite_false]
      rw [setSelections_map_val (f0 :: frest) context (List.cons_ne_nil f0 frest)]
      simp
  · simp only [hr, List.length_cons, List.isEmpty_cons, Nat.zero_lt_succ,
      gt_iff_lt, ite_true, ite_false, if_pos, Bool.false_eq_true]
    rw [setSelections_map_val (r0 :: rrest) context (List.cons_ne_nil r0 rrest)]

theorem neg_lt_tmod_of_pos (a : Int) (n : Nat) (h : 0 < n) :
    -(n : Int) < Int.tmod a (n : Int) := by
  cases a with
  | ofNat m =>
    have h0 : 0 ≤ Int.tmod (Int.ofNat m) (n : Int) :=
      Int.tmod_nonneg _ (Int.ofNat_nonneg m)
    omega
  | negSucc m =>
    have hm : (m + 1) % n < n := Nat.mod_lt _ h
    have ht : Int.tmod (Int.negSucc m) ((n : Nat) : Int)
        = -(((m + 1) % n : Nat) : Int) := rfl
    rw [ht]
    omega

theorem rotateFold_length (selections : List Selection) (bn : Nat) :
    ∀ (n : Nat) (init : List Selection),
      ((List.range n).foldl
        (fun newSelections i =>
          newSelections.set ((i + bn) % selections.length)
            (selections.getD i ⟨⟨0, 0⟩, ⟨0, 0⟩⟩))
        init).length = init.length := by
  intro n
  induction n with
  | zero => intro init; rfl
  | succ n ih =>
    intro init
    rw [List.range_succ, List.foldl_append, List.foldl_cons, List.foldl_nil,
      List.length_set, ih]

theorem rotateFold_getElem (selections : List Selection) (bn : Nat)
    (hlen : 0 < selections.length) :
    ∀ n, n ≤ selections.length → ∀ i, i < n →
      ((List.range n).foldl
        (fun newSelections i =>
          newSelections.set ((i + bn) % selections.length)
            (selections.getD i ⟨⟨0, 0⟩, ⟨0, 0⟩⟩))
        (List.replicate selections.length ⟨⟨0, 0⟩, ⟨0, 0⟩⟩))[(i + bn) % selections.length]?
        = some (selections.getD i ⟨⟨0, 0⟩, ⟨0, 0⟩⟩) := by
  intro n
  induction n with
  | zero => intro _ i hi; exact absurd hi (Nat.not_lt_zero i)
  | succ n ih =>
    intro hn i hi
    rw [List.range_succ, List.foldl_append, List.foldl_cons, List.foldl_nil]
    by_cases he : i = n
    · subst he
      apply List.getElem?_set_self
      rw [rotateFold_length, List.length_replicate]
      exact Nat.mod_lt _ hlen
    · have hmodne : (n + bn) % selections.length ≠ (i + bn) % selections.length := by
        intro hcontra
        have hmeq : n % selections.length = i % selections.length :=
          Nat.ModEq.add_right_cancel' bn hcontra
        rw [Nat.mod_eq_of_lt (by omega), Nat.mod_eq_of_lt (by omega)] at hmeq
        exact he hmeq.symm
      rw [List.getElem?_set_ne hmodne]
      exact ih (by omega) i (by omega)

theorem rotate_index_eq (len : Nat) (hlen : 0 < len) (by_ : Int) (i : Nat) :
    ((((i : Int) + by_) % (len : Int)).toNat)
      = (i + (Int.tmod by_ (len : Int) + (len : Int)).toNat) % len := by
  have hub : Int.tmod by_ (len : Int) < (len : Int) :=
    Int.tmod_lt_of_pos by_ (by exact_mod_cast hlen)
  have hlb : -(len : Int) < Int.tmod by_ (len : Int) := neg_lt_tmod_of_pos by_ len hlen
  have htd := Int.tmod_add_tdiv by_ (len : Int)
  have hnn : (0 : Int) ≤ Int.tmod by_ (len : Int) + (len : Int) := by omega
  have hint : (((i + (Int.tmod by_ (len : Int) + (len : Int)).toNat) % len : Nat) : Int)
      = ((i : Int) + by_) % (len : Int) := by
    rw [Int.ofNat_emod]
    push_cast [Int.toNat_of_nonneg hnn]
    rw [show (i : Int) + (Int.tmod by_ (len : Int) + (len : Int))
        = ((i : Int) + Int.tmod by_ (len : Int)) + (len : Int) * 1 by ring]
    rw [Int.add_mul_emod_self_left]
    rw [show (i : Int) + by_ = ((i : Int) + Int.tmod by_ (len : Int))
        + (len : Int) * Int.tdiv by_ (len : Int) by omega]
    rw [Int.add_mul_emod_self_left]
  rw [← hint, Int.toNat_natCast]

/-- C8: for every non-empty selection list and every integer amount,
`rotateSelections` moves the selection at index `i` to index
`(i + by) mod N`; a rotation amount divisible by `N` returns the input
unchanged (a fresh copy in the source, equal as a value); in particular
`rotate(1, [A, B, C]) = [C, A, B]` and `rotate(-1, [A, B, C]) = [B, C, A]`. -/
theorem rotateSelections_spec (selections : List Selection) (by_ : Int)
    (h : selections ≠ []) :
    (∀ i, i < selections.length →
      (rotateSelections by_ selections)[((((i : Int) + by_) % (selections.length : Int)).toNat)]?
        = selections[i]?)
    ∧ (by_ % (selections.length : Int) = 0 → rotateSelections by_ selections = selections)
    ∧ (∀ A B C : Selection,
        rotateSelections 1 [A, B, C] = [C, A, B]
        ∧ rotateSelections (-1) [A, B, C] = [B, C, A]) := by
  have hlen : 0 < selections.length := List.length_pos.mpr h
  refine ⟨?_, ?_, ?_⟩
  · intro i hi
    by_cases hz : Int.tmod by_ (selections.length : Int) + (selections.length : Int)
        = (selections.length : Int)
    · have htz : Int.tmod by_ (selections.length : Int) = 0 := by omega
      have htd := Int.tmod_add_tdiv by_ (selections.length : Int)
      have hdvd : ((selections.length : Int)) ∣ by_ :=
        ⟨Int.tdiv by_ (selections.length : Int), by omega⟩
      obtain ⟨q, hq⟩ := hdvd
      have he : (((i : Int) + by_) % ((selections.length : Nat) : Int)) = (i : Int) := by
        rw [hq, Int.add_mul_emod_self_left]
        exact Int.emod_eq_of_lt (by exact_mod_cast Nat.zero_le i) (by exact_mod_cast hi)
      unfold rotateSelections
      dsimp only
      rw [if_pos hz, he, Int.toNat_natCast]
    · unfold rotateSelections
      dsimp only
      rw [if_neg hz, rotate_index_eq selections.length hlen by_ i]
      rw [rotateFold_getElem selections _ hlen selections.length (Nat.le_refl _) i hi]
      rw [List.getD_eq_getElem?_getD, List.getElem?_eq_getElem hi]
      rfl
  · intro hmod
    have hdvd : ((selections.length : Int)) ∣ by_ := Int.dvd_of_emod_eq_zero hmod
    have htz : Int.tmod by_ (selections.length : Int) = 0 :=
      Int.tmod_eq_zero_of_dvd hdvd
    unfold rotateSelections
    dsimp only
    rw [if_pos (by rw [htz, Int.zero_add])]
  · intro A B C
    constructor
    · unfold rotateSelections
      dsimp only
      norm_num
      rfl
    · unfold rotateSelections
      dsimp only
      norm_num
      rfl

theorem rotateSelections_spec_witness :
    (rotateSelections 1
        [⟨⟨0, 0⟩, ⟨0, 1⟩⟩, ⟨⟨0, 2⟩, ⟨0, 3⟩⟩, ⟨⟨0, 4⟩, ⟨0, 5⟩⟩])[((((0 : Nat) : Int) + 1) % ((3 : Nat) : Int)).toNat]?
      = ([⟨⟨0, 0⟩, ⟨0, 1⟩⟩, ⟨⟨0, 2⟩, ⟨0, 3⟩⟩, ⟨⟨0, 4⟩, ⟨0, 5⟩⟩] : List Selection)[0]? :=
  (rotateSelections_spec [⟨⟨0, 0⟩, ⟨0, 1⟩⟩, ⟨⟨0, 2⟩, ⟨0, 3⟩⟩, ⟨⟨0, 4⟩, ⟨0, 5⟩⟩] 1
    (by decide)).1 0 (by decide)

theorem fromChar_toChar_sel (doc : TextDocument) (s : Selection)
    (hanchor : s.anchor.validIn doc) (hactive : s.active.validIn doc)
    (hforward : s.anchor.isBefore s.active = true) :
    Selections.fromCharacterModeSel doc (Selections.toCharacterModeSel doc s) = s := by
  obtain ⟨⟨nl, nc⟩, ⟨al, ac⟩⟩ := s
  simp only [Position.isBefore, Bool.or_eq_true, decide_eq_true_eq,
    Bool.and_eq_true] at hforward
  simp only [Position.validIn] at hanchor hactive
  obtain ⟨hnll, hncl⟩ := hanchor
  obtain ⟨hall, hacl⟩ := hactive
  unfold Selections.toCharacterModeSel
  dsimp only
  rcases hforward with hlt | ⟨heq, hclt⟩
  · -- anchor strictly on an earlier line
    rw [if_neg (show ¬nl = al by omega), if_pos hlt]
    by_cases hac : ac > 0
    · rw [if_pos hac]
      unfold Selections.fromCharacterModeSel
      dsimp only
      rw [if_pos (show nl < al ∨ nl = al ∧ nc ≤ ac - 1 from Or.inl hlt)]
      rw [if_neg (show ¬(ac - 1 = doc.lineLength al) by omega)]
      simp only [Selection.mk.injEq, Position.mk.injEq, true_and]
      omega
    · rw [if_neg hac]
      unfold Selections.fromCharacterModeSel
      dsimp only
      rw [if_pos (show nl < al - 1 ∨ nl = al - 1 ∧ nc ≤ doc.lineLength (al - 1) by
        by_cases hnb : nl = al - 1
        · exact Or.inr ⟨hnb, by rw [hnb] at hncl; exact hncl⟩
        · exact Or.inl (by omega))]
      rw [if_pos (show doc.lineLength (al - 1) = doc.lineLength (al - 1) from rfl)]
      rw [if_pos (show al - 1 + 1 < doc.lineCount by omega)]
      simp only [Selection.mk.injEq, Position.mk.injEq, true_and]
      omega
  · -- same line, anchor strictly before active
    subst heq
    rw [if_pos rfl]
    by_cases hone : nc + 1 = ac
    · rw [if_pos hone]
      unfold Selections.fromCharacterModeSel
      dsimp only
      rw [if_pos (show nl < nl ∨ nl = nl ∧ nc ≤ nc from Or.inr ⟨rfl, Nat.le_refl nc⟩)]
      rw [if_neg (show ¬(nc = doc.lineLength nl) by omega)]
      simp only [Selection.mk.injEq, Position.mk.injEq, true_and]
      omega
    · rw [if_neg hone, if_neg (show ¬(nc = ac + 1) by omega), if_pos hclt]
      unfold Selections.fromCharacterModeSel
      dsimp only
      rw [if_pos (show nl < nl ∨ nl = nl ∧ nc ≤ ac - 1 from Or.inr ⟨rfl, by omega⟩)]
      rw [if_neg (show ¬(ac - 1 = doc.lineLength nl) by omega)]
      simp only [Selection.mk.injEq, Position.mk.injEq, true_and]
      omega

/-- C2 (counterexample): the round trip fails for an empty selection that is
not at the absolute end of the buffer — `toCharacterMode` leaves it
unchanged while `fromCharacterMode` extends it by one character. -/
theorem roundTrip_fails_for_empty_selection :
    ((⟨⟨0, 0⟩, ⟨0, 0⟩⟩ : Selection).isEmpty = true)
    ∧ Position.validIn ⟨0, 0⟩ ⟨[['a'], ['b']]⟩
    ∧ (⟨⟨0, 0⟩, ⟨0, 0⟩⟩ : Selection).end_ ≠ TextDocument.lastPosition ⟨[['a'], ['b']]⟩
    ∧ Selections.fromCharacterMode
        (Selections.toCharacterMode [⟨⟨0, 0⟩, ⟨0, 0⟩⟩] ⟨[['a'], ['b']]⟩) ⟨[['a'], ['b']]⟩
      ≠ [⟨⟨0, 0⟩, ⟨0, 0⟩⟩] := by
  decide

/-- C2 (amended): for every document and every selection that is
forward-facing and non-empty (anchor strictly before active), with both
positions within the document bounds and the end not at the absolute end of
the buffer, `fromCharacterMode(toCharacterMode([S])) = [S]`. -/
theorem fromCharacterMode_toCharacterMode_roundTrip (doc : TextDocument) (s : Selection)
    (hanchor : s.anchor.validIn doc) (hactive : s.active.validIn doc)
    (hforward : s.anchor.isBefore s.active = true)
    (_hend : s.end_ ≠ doc.lastPosition) :
    Selections.fromCharacterMode (Selections.toCharacterMode [s] doc) doc = [s] := by
  unfold Selections.fromCharacterMode Selections.toCharacterMode
  simp only [List.map_cons, List.map_nil]
  rw [fromChar_toChar_sel doc s hanchor hactive hforward]

theorem fromCharacterMode_toCharacterMode_roundTrip_witness :
    Selections.fromCharacterMode
        (Selections.toCharacterMode [⟨⟨0, 0⟩, ⟨0, 3⟩⟩] ⟨[['a', 'b', 'c', 'd']]⟩)
        ⟨[['a', 'b', 'c', 'd']]⟩
      = [⟨⟨0, 0⟩, ⟨0, 3⟩⟩] :=
  fromCharacterMode_toCharacterMode_roundTrip ⟨[['a', 'b', 'c', 'd']]⟩ ⟨⟨0, 0⟩, ⟨0, 3⟩⟩
    (by decide) (by decide) (by decide) (by decide)
